import Mathlib

/-!
Shallow embedding of the UBJSON builder (src/src/builder.js, with the earlier
revision src/unnamed/part_000 embedded under a v0 suffix).

The builder is an asm.js module holding a cursor `pos` into a byte heap.
We model the heap as a `List Nat` of bytes together with the cursor and an
`oob` flag that records whether any store fell outside the buffer (a JS
typed-array store out of range is silently dropped; the flag makes that
branch observable).  Values are `Int` (asm.js coerces arguments with `|0`
to a 32-bit signed integer); a byte extracted from a value is taken from
its unsigned 32-bit representation.
-/

/-- Builder state: cursor, byte buffer, and an out-of-bounds marker. -/
structure Builder where
  pos : Nat
  buf : List Nat
  oob : Bool
  deriving Repr, DecidableEq

/-- `bytesU8[i] = v`: in-range stores update the buffer, out-of-range stores
are dropped (recorded in `oob`).  Mirrors JS `Uint8Array` store semantics. -/
def setByte (b : Builder) (i v : Nat) : Builder :=
  if i < b.buf.length then { b with buf := b.buf.set i v } else { b with oob := true }

/-- `bytesU8[i]`: out-of-range reads yield `undefined`, which coerces to 0. -/
def getByte (b : Builder) (i : Nat) : Nat :=
  b.buf.getD i 0

/-- Unsigned 32-bit representation of an `Int` (the value after `|0`,
read as unsigned). -/
def u32 (v : Int) : Nat :=
  (v % 4294967296).toNat

/-- `val >> k & 0xFF` on the 32-bit value: byte `k/8` of the two's-complement
representation (k ∈ {0,8,16,24}). -/
def byteOf (v : Int) (k : Nat) : Nat :=
  u32 v / 2 ^ k % 256

/-- Byte `k` (little-endian) of a raw bit pattern held as a `Nat`. -/
def patByte (bits : Nat) (k : Nat) : Nat :=
  bits / 2 ^ (8 * k) % 256

-- UBJSON type markers (src/src/builder.js lines 86-98):
-- 95 = placeholder, 111 = o, 79 = O, 97 = a, 65 = A, 66 = B,
-- 105 = i, 73 = I, 100 = d, 68 = D, 115 = s, 83 = S.

/-- `startObject(flags)`: marker plus 1 or 4 placeholder bytes (95),
cursor advances by 2 (small) or 5 (big).  BIG is bit 0 of `flags`. -/
def startObject (b : Builder) (flags : Int) : Builder :=
  if flags % 2 = 0 then
    let b1 := setByte b b.pos 111
    let b2 := setByte b1 (b.pos + 1) 95
    { b2 with pos := b.pos + 2 }
  else
    let b1 := setByte b b.pos 79
    let b2 := setByte b1 (b.pos + 1) 95
    let b3 := setByte b2 (b.pos + 2) 95
    let b4 := setByte b3 (b.pos + 3) 95
    let b5 := setByte b4 (b.pos + 4) 95
    { b5 with pos := b.pos + 5 }

/-- `finishObject(offset, count, flags)`: patch the placeholder byte(s) with
the child count (big-endian in the big case). -/
def finishObject (b : Builder) (offset : Nat) (count flags : Int) : Builder :=
  if flags % 2 = 0 then
    setByte b (offset + 1) (byteOf count 0)
  else
    let b1 := setByte b (offset + 1) (byteOf count 24)
    let b2 := setByte b1 (offset + 2) (byteOf count 16)
    let b3 := setByte b2 (offset + 3) (byteOf count 8)
    setByte b3 (offset + 4) (byteOf count 0)

/-- `startArray(flags)`. -/
def startArray (b : Builder) (flags : Int) : Builder :=
  if flags % 2 = 0 then
    let b1 := setByte b b.pos 97
    let b2 := setByte b1 (b.pos + 1) 95
    { b2 with pos := b.pos + 2 }
  else
    let b1 := setByte b b.pos 65
    let b2 := setByte b1 (b.pos + 1) 95
    let b3 := setByte b2 (b.pos + 2) 95
    let b4 := setByte b3 (b.pos + 3) 95
    let b5 := setByte b4 (b.pos + 4) 95
    { b5 with pos := b.pos + 5 }

/-- `finishArray(offset, count, flags)`. -/
def finishArray (b : Builder) (offset : Nat) (count flags : Int) : Builder :=
  if flags % 2 = 0 then
    setByte b (offset + 1) (byteOf count 0)
  else
    let b1 := setByte b (offset + 1) (byteOf count 24)
    let b2 := setByte b1 (offset + 2) (byteOf count 16)
    let b3 := setByte b2 (offset + 3) (byteOf count 8)
    setByte b3 (offset + 4) (byteOf count 0)

/-- `startString(flags)`. -/
def startString (b : Builder) (flags : Int) : Builder :=
  if flags % 2 = 0 then
    let b1 := setByte b b.pos 115
    let b2 := setByte b1 (b.pos + 1) 95
    { b2 with pos := b.pos + 2 }
  else
    let b1 := setByte b b.pos 83
    let b2 := setByte b1 (b.pos + 1) 95
    let b3 := setByte b2 (b.pos + 2) 95
    let b4 := setByte b3 (b.pos + 3) 95
    let b5 := setByte b4 (b.pos + 4) 95
    { b5 with pos := b.pos + 5 }

/-- `finishString(offset, count, flags)`. -/
def finishString (b : Builder) (offset : Nat) (count flags : Int) : Builder :=
  if flags % 2 = 0 then
    setByte b (offset + 1) (byteOf count 0)
  else
    let b1 := setByte b (offset + 1) (byteOf count 24)
    let b2 := setByte b1 (offset + 2) (byteOf count 16)
    let b3 := setByte b2 (offset + 3) (byteOf count 8)
    setByte b3 (offset + 4) (byteOf count 0)

/-- `writeStringChar(val)`: one raw byte, cursor + 1. -/
def writeStringChar (b : Builder) (v : Int) : Builder :=
  let b1 := setByte b b.pos (byteOf v 0)
  { b1 with pos := b.pos + 1 }

/-- `writeByte(val)`: marker 66 then the byte, cursor + 2. -/
def writeByte (b : Builder) (v : Int) : Builder :=
  let b1 := setByte b b.pos 66
  let b2 := setByte b1 (b.pos + 1) (byteOf v 0)
  { b2 with pos := b.pos + 2 }

/-- `writeI16(val)`: marker 105 then 2 bytes, high byte first, cursor + 3. -/
def writeI16 (b : Builder) (v : Int) : Builder :=
  let b1 := setByte b b.pos 105
  let b2 := setByte b1 (b.pos + 1) (byteOf v 8)
  let b3 := setByte b2 (b.pos + 2) (byteOf v 0)
  { b3 with pos := b.pos + 3 }

/-- `writeI32(val)`: marker 73 then 4 bytes, high byte first, cursor + 5. -/
def writeI32 (b : Builder) (v : Int) : Builder :=
  let b1 := setByte b b.pos 73
  let b2 := setByte b1 (b.pos + 1) (byteOf v 24)
  let b3 := setByte b2 (b.pos + 2) (byteOf v 16)
  let b4 := setByte b3 (b.pos + 3) (byteOf v 8)
  let b5 := setByte b4 (b.pos + 4) (byteOf v 0)
  { b5 with pos := b.pos + 5 }

/-- `writeD32(val)`: the float32 bit pattern `bits` is stored through the
`Float32Array` view at element `pos+1` (byte offset `4*(pos+1)`, little-endian
host), then the marker 100 is written and the four scratch bytes are copied in
reverse order into `pos+1..pos+4`; cursor + 5. -/
def writeD32 (b : Builder) (bits : Nat) : Builder :=
  let scratchPos := 4 * (b.pos + 1)
  let b1 := setByte b scratchPos (patByte bits 0)
  let b2 := setByte b1 (scratchPos + 1) (patByte bits 1)
  let b3 := setByte b2 (scratchPos + 2) (patByte bits 2)
  let b4 := setByte b3 (scratchPos + 3) (patByte bits 3)
  let b5 := setByte b4 b.pos 100
  let b6 := setByte b5 (b.pos + 1) (getByte b5 (scratchPos + 3))
  let b7 := setByte b6 (b.pos + 2) (getByte b6 (scratchPos + 2))
  let b8 := setByte b7 (b.pos + 3) (getByte b7 (scratchPos + 1))
  let b9 := setByte b8 (b.pos + 4) (getByte b8 scratchPos)
  { b9 with pos := b.pos + 5 }

/-- `writeD64(val)`: the float64 bit pattern `bits` is stored through the
`Float64Array` view at element `pos+1` (byte offset `8*(pos+1)`), then the
marker 68 is written and the eight scratch bytes are copied in reverse order
into `pos+1..pos+8`; cursor + 9. -/
def writeD64 (b : Builder) (bits : Nat) : Builder :=
  let scratchPos := 8 * (b.pos + 1)
  let b1 := setByte b scratchPos (patByte bits 0)
  let b2 := setByte b1 (scratchPos + 1) (patByte bits 1)
  let b3 := setByte b2 (scratchPos + 2) (patByte bits 2)
  let b4 := setByte b3 (scratchPos + 3) (patByte bits 3)
  let b5 := setByte b4 (scratchPos + 4) (patByte bits 4)
  let b6 := setByte b5 (scratchPos + 5) (patByte bits 5)
  let b7 := setByte b6 (scratchPos + 6) (patByte bits 6)
  let b8 := setByte b7 (scratchPos + 7) (patByte bits 7)
  let b9 := setByte b8 b.pos 68
  let b10 := setByte b9 (b.pos + 1) (getByte b9 (scratchPos + 7))
  let b11 := setByte b10 (b.pos + 2) (getByte b10 (scratchPos + 6))
  let b12 := setByte b11 (b.pos + 3) (getByte b11 (scratchPos + 5))
  let b13 := setByte b12 (b.pos + 4) (getByte b12 (scratchPos + 4))
  let b14 := setByte b13 (b.pos + 5) (getByte b13 (scratchPos + 3))
  let b15 := setByte b14 (b.pos + 6) (getByte b14 (scratchPos + 2))
  let b16 := setByte b15 (b.pos + 7) (getByte b15 (scratchPos + 1))
  let b17 := setByte b16 (b.pos + 8) (getByte b16 scratchPos)
  { b17 with pos := b.pos + 9 }

/-- `position()`: pure query of the cursor. -/
def position (b : Builder) : Nat :=
  b.pos

/-- Earlier revision (src/unnamed/part_000) of `writeI16`: low byte first. -/
def writeI16_v0 (b : Builder) (v : Int) : Builder :=
  let b1 := setByte b b.pos 105
  let b2 := setByte b1 (b.pos + 1) (byteOf v 0)
  let b3 := setByte b2 (b.pos + 2) (byteOf v 8)
  { b3 with pos := b.pos + 3 }

/-- Earlier revision (src/unnamed/part_000) of `finishObject`: the big branch
writes the count low byte first, and the flag test is `isBig == 0`. -/
def finishObject_v0 (b : Builder) (offset : Nat) (count isBig : Int) : Builder :=
  if isBig = 0 then
    setByte b (offset + 1) (byteOf count 0)
  else
    let b1 := setByte b (offset + 1) (byteOf count 0)
    let b2 := setByte b1 (offset + 2) (byteOf count 8)
    let b3 := setByte b2 (offset + 3) (byteOf count 16)
    setByte b3 (offset + 4) (byteOf count 24)

/-- Decoded UBJSON value (the subset exercised by the round-trip document). -/
inductive UValue where
  | vbyte : Nat → UValue
  | vstr : List Nat → UValue
  | vobj : List (List Nat × UValue) → UValue

/-- Read `n` raw bytes starting at `i`. -/
def readBytes (buf : List Nat) (i n : Nat) : Option (List Nat) :=
  if i + n ≤ buf.length then some ((buf.drop i).take n) else none

/-- Modelled from the spec: small string token per the section 6 wire grammar,
marker 115 plus 1-byte count plus count raw bytes. -/
def decodeStr (buf : List Nat) (i : Nat) : Option (List Nat × Nat) :=
  match buf[i]? with
  | some 115 =>
    match buf[i + 1]? with
    | some n =>
      match readBytes buf (i + 2) n with
      | some s => some (s, i + 2 + n)
      | none => none
    | none => none
  | _ => none

/-- Modelled from the spec: `n` key/value pairs of an object body, each key a
string token, values decoded by the supplied reader `dv`. -/
def decodePairsAux (dv : List Nat → Nat → Option (UValue × Nat)) :
    Nat → List Nat → Nat → Option (List (List Nat × UValue) × Nat)
  | 0, _, i => some ([], i)
  | Nat.succ n, buf, i =>
    match decodeStr buf i with
    | some (k, j) =>
      match dv buf j with
      | some (v, j2) =>
        match decodePairsAux dv n buf j2 with
        | some (ps, j3) => some ((k, v) :: ps, j3)
        | none => none
      | none => none
    | none => none

/-- Modelled from the spec: decoding is explicitly out of scope of the core
(spec section 1), and spec section 8 names an independent reference UBJSON
reader as the acceptance oracle for the round-trip property.  This decoder
follows the section 6 wire grammar for the markers the round-trip document
uses: small object 111 = marker plus 1-byte count plus count key/value pairs,
small string 115 = marker plus 1-byte count plus count raw bytes, byte scalar
66 = marker plus 1 byte.  It returns the value and the index one past it. -/
def decodeValue : Nat → List Nat → Nat → Option (UValue × Nat)
  | 0, _, _ => none
  | Nat.succ fuel, buf, i =>
    match buf[i]? with
    | some 66 =>
      match buf[i + 1]? with
      | some v => some (UValue.vbyte v, i + 2)
      | none => none
    | some 115 =>
      match decodeStr buf i with
      | some (s, j) => some (UValue.vstr s, j)
      | none => none
    | some 111 =>
      match buf[i + 1]? with
      | some n =>
        match decodePairsAux (decodeValue fuel) n buf (i + 2) with
        | some (ps, j) => some (UValue.vobj ps, j)
        | none => none
      | none => none
    | _ => none

/-- The document `{a: 1}` encoded exactly as the claim prescribes:
startObject(small), key via startString(small) / writeStringChar 97 /
finishString(offset, 1), then writeByte 1, then finishObject(offset, 1),
with both offsets taken from `position`. -/
def encodeA1 : Builder :=
  let b0 : Builder := ⟨0, List.replicate 16 0, false⟩
  let p0 := position b0
  let b1 := startObject b0 0
  let p1 := position b1
  let b2 := startString b1 0
  let b3 := writeStringChar b2 97
  let b4 := finishString b3 p1 1 0
  let b5 := writeByte b4 1
  finishObject b5 p0 1 0

/-! ### Basic lemmas about the state operations -/

theorem buf_withPos (b : Builder) (p : Nat) : ({ b with pos := p } : Builder).buf = b.buf :=
  rfl

theorem oob_withPos (b : Builder) (p : Nat) : ({ b with pos := p } : Builder).oob = b.oob :=
  rfl

theorem getByte_withPos (b : Builder) (p j : Nat) :
    getByte ({ b with pos := p } : Builder) j = getByte b j :=
  rfl

theorem setByte_pos (b : Builder) (i v : Nat) : (setByte b i v).pos = b.pos := by
  unfold setByte; split <;> rfl

theorem setByte_length (b : Builder) (i v : Nat) :
    (setByte b i v).buf.length = b.buf.length := by
  unfold setByte; split <;> simp

theorem setByte_oob (b : Builder) (i v : Nat) :
    (setByte b i v).oob = (b.oob || decide (b.buf.length ≤ i)) := by
  unfold setByte; split
  · next h => simp [Nat.not_le.2 h]
  · next h => simp [Nat.not_lt.1 h]

theorem getByte_setByte (b : Builder) (i v j : Nat) :
    getByte (setByte b i v) j = if j = i ∧ i < b.buf.length then v else getByte b j := by
  unfold setByte getByte
  by_cases h : i < b.buf.length
  · rw [if_pos h]
    by_cases hj : j = i
    · subst hj
      simp [List.getD_eq_getElem?_getD, List.getElem?_set, h]
    · have hij : i ≠ j := fun hh => hj hh.symm
      simp [List.getD_eq_getElem?_getD, List.getElem?_set, hij, hj]
  · rw [if_neg h]
    simp [h]

theorem writeByte_pos (b : Builder) (v : Int) : (writeByte b v).pos = b.pos + 2 := rfl

theorem writeI16_pos (b : Builder) (v : Int) : (writeI16 b v).pos = b.pos + 3 := rfl

theorem writeI32_pos (b : Builder) (v : Int) : (writeI32 b v).pos = b.pos + 5 := rfl

theorem writeD32_pos (b : Builder) (bits : Nat) : (writeD32 b bits).pos = b.pos + 5 := rfl

theorem writeD64_pos (b : Builder) (bits : Nat) : (writeD64 b bits).pos = b.pos + 9 := rfl

theorem writeStringChar_pos (b : Builder) (v : Int) :
    (writeStringChar b v).pos = b.pos + 1 := rfl

theorem startObject_pos (b : Builder) (flags : Int) :
    (startObject b flags).pos = b.pos + (if flags % 2 = 0 then 2 else 5) := by
  unfold startObject; split <;> rename_i h <;> simp [h]

theorem startArray_pos (b : Builder) (flags : Int) :
    (startArray b flags).pos = b.pos + (if flags % 2 = 0 then 2 else 5) := by
  unfold startArray; split <;> rename_i h <;> simp [h]

theorem startString_pos (b : Builder) (flags : Int) :
    (startString b flags).pos = b.pos + (if flags % 2 = 0 then 2 else 5) := by
  unfold startString; split <;> rename_i h <;> simp [h]

theorem finishObject_pos (b : Builder) (offset : Nat) (count flags : Int) :
    (finishObject b offset count flags).pos = b.pos := by
  unfold finishObject; split <;> simp [setByte_pos]

theorem finishArray_pos (b : Builder) (offset : Nat) (count flags : Int) :
    (finishArray b offset count flags).pos = b.pos := by
  unfold finishArray; split <;> simp [setByte_pos]

theorem finishString_pos (b : Builder) (offset : Nat) (count flags : Int) :
    (finishString b offset count flags).pos = b.pos := by
  unfold finishString; split <;> simp [setByte_pos]

theorem u32_lt (v : Int) : u32 v < 4294967296 := by
  unfold u32
  have h1 : 0 ≤ v % 4294967296 := Int.emod_nonneg v (by norm_num)
  have h2 : v % 4294967296 < 4294967296 := Int.emod_lt_of_pos v (by norm_num)
  omega

theorem byteOf_recompose32 (v : Int) :
    byteOf v 24 * 16777216 + byteOf v 16 * 65536 + byteOf v 8 * 256 + byteOf v 0 = u32 v := by
  have h := u32_lt v
  unfold byteOf
  norm_num
  omega

theorem byteOf_recompose16 (v : Int) :
    byteOf v 8 * 256 + byteOf v 0 = u32 v % 65536 := by
  have h := u32_lt v
  unfold byteOf
  norm_num
  omega

theorem byteOf_zero_eq (v : Int) : byteOf v 0 = (v % 256).toNat := by
  unfold byteOf u32
  have h1 : 0 ≤ v % 4294967296 := Int.emod_nonneg v (by norm_num)
  have h2 : v % 4294967296 % 256 = v % 256 :=
    Int.emod_emod_of_dvd v (by norm_num)
  have h3 : 0 ≤ v % 256 := Int.emod_nonneg v (by norm_num)
  norm_num
  omega

/-! ### Claim theorems -/

/-- C1: each integer scalar write emits its one-byte type marker followed by
the value's fixed-width big-endian encoding and advances the cursor by the
token size: `writeByte` emits marker 66 then the byte and advances by 2
(`writeByte 10` emits exactly `[66, 10]`), `writeI16` emits 105 then 2 bytes
high-byte-first and advances by 3, `writeI32` emits 73 then 4 bytes
high-byte-first and advances by 5 (`writeI32 0xFFFF` gives value bytes
0, 0, 255, 255); the emitted bytes recompose to the unsigned 32-bit value,
so they are its big-endian encoding. -/
theorem scalar_write_tokens (b : Builder) (v : Int) (h : b.pos + 5 ≤ b.buf.length) :
    ((writeByte b v).pos = b.pos + 2 ∧
      getByte (writeByte b v) b.pos = 66 ∧
      getByte (writeByte b v) (b.pos + 1) = byteOf v 0) ∧
    ((writeI16 b v).pos = b.pos + 3 ∧
      getByte (writeI16 b v) b.pos = 105 ∧
      getByte (writeI16 b v) (b.pos + 1) = byteOf v 8 ∧
      getByte (writeI16 b v) (b.pos + 2) = byteOf v 0 ∧
      byteOf v 8 * 256 + byteOf v 0 = u32 v % 65536) ∧
    ((writeI32 b v).pos = b.pos + 5 ∧
      getByte (writeI32 b v) b.pos = 73 ∧
      getByte (writeI32 b v) (b.pos + 1) = byteOf v 24 ∧
      getByte (writeI32 b v) (b.pos + 2) = byteOf v 16 ∧
      getByte (writeI32 b v) (b.pos + 3) = byteOf v 8 ∧
      getByte (writeI32 b v) (b.pos + 4) = byteOf v 0 ∧
      byteOf v 24 * 16777216 + byteOf v 16 * 65536 + byteOf v 8 * 256 + byteOf v 0 = u32 v) ∧
    (writeByte ⟨0, [0, 0], false⟩ 10).buf = [66, 10] ∧
    (writeI32 ⟨0, [0, 0, 0, 0, 0], false⟩ 65535).buf = [73, 0, 0, 255, 255] := by
  refine ⟨⟨rfl, ?_, ?_⟩, ⟨rfl, ?_, ?_, ?_, byteOf_recompose16 v⟩,
    ⟨rfl, ?_, ?_, ?_, ?_, ?_, byteOf_recompose32 v⟩, by decide, by decide⟩ <;>
    simp only [writeByte, writeI16, writeI32, getByte_withPos, getByte_setByte,
      setByte_length, true_and, and_true] <;>
    split_ifs <;> first | rfl | omega

/-- C1 witness: the general part of `scalar_write_tokens` instantiated at a
concrete builder and value. -/
theorem scalar_write_tokens_witness :
    (0 : Nat) + 5 ≤ (List.replicate 8 0).length ∧
    (getByte (writeI32 ⟨0, List.replicate 8 0, false⟩ 65535) 3 = byteOf 65535 8) :=
  ⟨by decide, (scalar_write_tokens ⟨0, List.replicate 8 0, false⟩ 65535
    (by decide)).2.2.1.2.2.2.2.2.1⟩

/-- C3: for every flags value, the three start operations advance the cursor
by exactly 2 when the BIG bit (bit 0) is clear — writing the lowercase marker
(111/97/115) then one placeholder byte 95 — and by exactly 5 when it is set
(uppercase marker 79/65/83 then four placeholder bytes 95); the three finish
operations never change the cursor, for any offset, count and flags. -/
theorem container_cursor_protocol (b : Builder) (flags count : Int) (offset : Nat)
    (h : b.pos + 5 ≤ b.buf.length) :
    (startObject b flags).pos = b.pos + (if flags % 2 = 0 then 2 else 5) ∧
    (startArray b flags).pos = b.pos + (if flags % 2 = 0 then 2 else 5) ∧
    (startString b flags).pos = b.pos + (if flags % 2 = 0 then 2 else 5) ∧
    (finishObject b offset count flags).pos = b.pos ∧
    (finishArray b offset count flags).pos = b.pos ∧
    (finishString b offset count flags).pos = b.pos ∧
    (flags % 2 = 0 →
      getByte (startObject b flags) b.pos = 111 ∧
      getByte (startObject b flags) (b.pos + 1) = 95 ∧
      getByte (startArray b flags) b.pos = 97 ∧
      getByte (startArray b flags) (b.pos + 1) = 95 ∧
      getByte (startString b flags) b.pos = 115 ∧
      getByte (startString b flags) (b.pos + 1) = 95) ∧
    (flags % 2 ≠ 0 →
      getByte (startObject b flags) b.pos = 79 ∧
      getByte (startArray b flags) b.pos = 65 ∧
      getByte (startString b flags) b.pos = 83 ∧
      ∀ k, 1 ≤ k → k ≤ 4 →
        getByte (startObject b flags) (b.pos + k) = 95 ∧
        getByte (startArray b flags) (b.pos + k) = 95 ∧
        getByte (startString b flags) (b.pos + k) = 95) := by
  refine ⟨startObject_pos b flags, startArray_pos b flags, startString_pos b flags,
    finishObject_pos b offset count flags, finishArray_pos b offset count flags,
    finishString_pos b offset count flags, ?_, ?_⟩
  · intro hf
    refine ⟨?_, ?_, ?_, ?_, ?_, ?_⟩ <;>
      simp only [startObject, startArray, startString, if_pos hf, getByte_withPos,
        getByte_setByte, setByte_length, true_and, and_true] <;>
      split_ifs <;> first | rfl | omega
  · intro hf
    have hf2 : ¬ flags % 2 = 0 := hf
    refine ⟨?_, ?_, ?_, ?_⟩ <;>
      [skip; skip; skip;
       (intro k hk1 hk4
        have hk : k = 1 ∨ k = 2 ∨ k = 3 ∨ k = 4 := by omega
        refine ⟨?_, ?_, ?_⟩)] <;>
      simp only [startObject, startArray, startString, if_neg hf2, getByte_withPos,
        getByte_setByte, setByte_length, true_and, and_true] <;>
      split_ifs <;> first | rfl | omega

/-- C3 witness: instantiation at a concrete builder, both flag parities. -/
theorem container_cursor_protocol_witness :
    (startObject ⟨0, List.replicate 8 0, false⟩ 1).pos = 0 + 5 ∧
    (finishArray ⟨0, List.replicate 8 0, false⟩ 0 2 1).pos = 0 := by
  have h0 := container_cursor_protocol ⟨0, List.replicate 8 0, false⟩ 1 2 0 (by decide)
  exact ⟨by simpa using h0.1, h0.2.2.2.2.1⟩

/-- C7: cursor monotonicity — every start/write operation strictly increases
the cursor, every finish operation and the position query leave it exactly
unchanged; no operation ever rewinds the cursor. -/
theorem cursor_monotone (b : Builder) (v flags count : Int) (bits : Nat) (offset : Nat) :
    b.pos < (writeByte b v).pos ∧
    b.pos < (writeI16 b v).pos ∧
    b.pos < (writeI32 b v).pos ∧
    b.pos < (writeD32 b bits).pos ∧
    b.pos < (writeD64 b bits).pos ∧
    b.pos < (writeStringChar b v).pos ∧
    b.pos < (startObject b flags).pos ∧
    b.pos < (startArray b flags).pos ∧
    b.pos < (startString b flags).pos ∧
    (finishObject b offset count flags).pos = b.pos ∧
    (finishArray b offset count flags).pos = b.pos ∧
    (finishString b offset count flags).pos = b.pos ∧
    position b = b.pos := by
  refine ⟨?_, ?_, ?_, ?_, ?_, ?_, ?_, ?_, ?_,
    finishObject_pos b offset count flags, finishArray_pos b offset count flags,
    finishString_pos b offset count flags, rfl⟩ <;>
    simp only [writeByte_pos, writeI16_pos, writeI32_pos, writeD32_pos, writeD64_pos,
      writeStringChar_pos, startObject_pos, startArray_pos, startString_pos] <;>
    first | omega | (split_ifs <;> omega)

/-- C2: round-trip at the document level — the call sequence encoding the
object with single key "a" (bytes [97]) and value the byte scalar 1 produces
a byte stream that the reference decoder (section 6 wire grammar) decodes
back to exactly that key/value pair, consuming the 7 emitted bytes; no write
fell out of bounds. -/
theorem roundtrip_object_a1 :
    decodeValue 4 encodeA1.buf 0 = some (UValue.vobj [([97], UValue.vbyte 1)], 7) ∧
    encodeA1.pos = 7 ∧ encodeA1.oob = false :=
  ⟨rfl, rfl, rfl⟩

/-- C4: finishing with the BIG flag overwrites exactly the four placeholder
bytes at offset+1..offset+4 with the big-endian encoding of count (most
significant byte at offset+1), leaving the marker byte at offset and every
other buffer byte unchanged; concretely, a big array started at offset 0 and
finished with count 2 has header bytes [65, 0, 0, 0, 2], and a small object
finished with count 1 has header bytes [111, 1]. -/
theorem finish_big_patch (b : Builder) (offset : Nat) (count flags : Int)
    (hf : flags % 2 ≠ 0) (h : offset + 5 ≤ b.buf.length) :
    (∀ j, getByte (finishObject b offset count flags) j =
      if j = offset + 1 then byteOf count 24
      else if j = offset + 2 then byteOf count 16
      else if j = offset + 3 then byteOf count 8
      else if j = offset + 4 then byteOf count 0
      else getByte b j) ∧
    (∀ j, getByte (finishArray b offset count flags) j =
      if j = offset + 1 then byteOf count 24
      else if j = offset + 2 then byteOf count 16
      else if j = offset + 3 then byteOf count 8
      else if j = offset + 4 then byteOf count 0
      else getByte b j) ∧
    (∀ j, getByte (finishString b offset count flags) j =
      if j = offset + 1 then byteOf count 24
      else if j = offset + 2 then byteOf count 16
      else if j = offset + 3 then byteOf count 8
      else if j = offset + 4 then byteOf count 0
      else getByte b j) ∧
    byteOf count 24 * 16777216 + byteOf count 16 * 65536 + byteOf count 8 * 256 +
      byteOf count 0 = u32 count ∧
    (finishArray (startArray ⟨0, List.replicate 5 0, false⟩ 1) 0 2 1).buf =
      [65, 0, 0, 0, 2] ∧
    (finishObject (startObject ⟨0, [0, 0], false⟩ 0) 0 1 0).buf = [111, 1] := by
  refine ⟨?_, ?_, ?_, byteOf_recompose32 count, by decide, by decide⟩ <;>
    intro j <;>
    simp only [finishObject, finishArray, finishString, if_neg hf, getByte_setByte,
      setByte_length, true_and, and_true] <;>
    split_ifs <;> first | rfl | omega

/-- C4 witness: `finish_big_patch` at a concrete state, showing the patched
high byte and an untouched neighbour. -/
theorem finish_big_patch_witness :
    getByte (finishObject ⟨0, List.replicate 6 7, false⟩ 0 2 1) 1 = byteOf 2 24 ∧
    getByte (finishObject ⟨0, List.replicate 6 7, false⟩ 0 2 1) 5 = 7 := by
  have h := (finish_big_patch ⟨0, List.replicate 6 7, false⟩ 0 2 1 (by decide)
    (by decide)).1
  exact ⟨by simpa using h 1, by simpa [getByte] using h 5⟩

/-- C9: no auto-promotion of small headers — finishing with the BIG bit clear
stores only the low 8 bits of count (count mod 256) into the single
placeholder byte at offset+1, for every count including counts above 255,
and changes no other byte; concretely count 300 stores byte 44. -/
theorem finish_small_truncates (b : Builder) (offset : Nat) (count flags : Int)
    (hf : flags % 2 = 0) (h : offset + 2 ≤ b.buf.length) :
    (∀ j, getByte (finishObject b offset count flags) j =
      if j = offset + 1 then (count % 256).toNat else getByte b j) ∧
    (∀ j, getByte (finishArray b offset count flags) j =
      if j = offset + 1 then (count % 256).toNat else getByte b j) ∧
    (∀ j, getByte (finishString b offset count flags) j =
      if j = offset + 1 then (count % 256).toNat else getByte b j) ∧
    (finishObject ⟨0, [0, 0], false⟩ 0 300 0).buf = [0, 44] := by
  refine ⟨?_, ?_, ?_, by decide⟩ <;>
    intro j <;>
    simp only [finishObject, finishArray, finishString, if_pos hf, getByte_setByte,
      setByte_length, byteOf_zero_eq, true_and, and_true] <;>
    split_ifs <;> first | rfl | omega

/-- C9 witness: a count of 300 under a small header is stored as 44 and the
neighbouring byte is untouched. -/
theorem finish_small_truncates_witness :
    getByte (finishString ⟨0, List.replicate 3 9, false⟩ 0 300 0) 1 = 44 ∧
    getByte (finishString ⟨0, List.replicate 3 9, false⟩ 0 300 0) 2 = 9 := by
  have h := (finish_small_truncates ⟨0, List.replicate 3 9, false⟩ 0 300 0 (by decide)
    (by decide)).2.2.1
  exact ⟨by simpa using h 1, by simpa [getByte] using h 2⟩

theorem foldl_writeStringChar_pos (vs : List Int) (b : Builder) :
    (vs.foldl writeStringChar b).pos = b.pos + vs.length := by
  induction vs generalizing b with
  | nil => simp
  | cons x xs ih =>
    simp only [List.foldl_cons, ih, writeStringChar_pos, List.length_cons]
    omega

/-- C8: for every integer val, writeStringChar writes exactly one byte equal
to val mod 256 (the code point truncated to 8 bits, no multi-byte UTF-8
expansion) at the cursor, changes no other byte, and advances the cursor by
exactly 1 — so a run of n writeStringChar calls advances the cursor by n,
making the count patched by finishString a byte count equal to the number of
calls. -/
theorem writeStringChar_one_byte (b : Builder) (v : Int)
    (h : b.pos + 1 ≤ b.buf.length) :
    (writeStringChar b v).pos = b.pos + 1 ∧
    getByte (writeStringChar b v) b.pos = (v % 256).toNat ∧
    (∀ j, j ≠ b.pos → getByte (writeStringChar b v) j = getByte b j) ∧
    (∀ vs : List Int, (vs.foldl writeStringChar b).pos = b.pos + vs.length) := by
  refine ⟨rfl, ?_, ?_, fun vs => foldl_writeStringChar_pos vs b⟩
  · simp only [writeStringChar, getByte_withPos, getByte_setByte, byteOf_zero_eq,
      true_and, and_true]
    split_ifs <;> first | rfl | omega
  · intro j hj
    simp only [writeStringChar, getByte_withPos, getByte_setByte]
    split_ifs <;> first | rfl | (exact absurd (by omega) hj)

/-- C8 witness: writing code point 0x161 stores the single byte 0x61 and the
neighbour is untouched. -/
theorem writeStringChar_one_byte_witness :
    getByte (writeStringChar ⟨0, List.replicate 2 3, false⟩ 353) 0 = 97 ∧
    getByte (writeStringChar ⟨0, List.replicate 2 3, false⟩ 353) 1 = 3 := by
  have h := writeStringChar_one_byte ⟨0, List.replicate 2 3, false⟩ 353 (by decide)
  exact ⟨by simpa using h.2.1, by simpa [getByte] using h.2.2.1 1 (by decide)⟩

/-- C5: the two observed revisions are not extensionally equal — on the same
state the final writeI16 and the part_000 writeI16 emit the two value bytes
in swapped positions, and at value 258 they produce the distinct buffers
[105, 1, 2] and [105, 2, 1]; the final revision is the big-endian one (its
two bytes recompose high-byte-first to the 16-bit value, matching the UBJSON
wire format); the same byte-order flip holds between the two revisions of
big-flag finishObject, shown at count 258. -/
theorem writeI16_revisions_differ (b : Builder) (v : Int)
    (h : b.pos + 3 ≤ b.buf.length) :
    (getByte (writeI16 b v) (b.pos + 1) = getByte (writeI16_v0 b v) (b.pos + 2) ∧
     getByte (writeI16 b v) (b.pos + 2) = getByte (writeI16_v0 b v) (b.pos + 1) ∧
     getByte (writeI16 b v) (b.pos + 1) = byteOf v 8 ∧
     getByte (writeI16 b v) (b.pos + 2) = byteOf v 0) ∧
    byteOf v 8 * 256 + byteOf v 0 = u32 v % 65536 ∧
    (writeI16 ⟨0, [0, 0, 0], false⟩ 258).buf = [105, 1, 2] ∧
    (writeI16_v0 ⟨0, [0, 0, 0], false⟩ 258).buf = [105, 2, 1] ∧
    (finishObject ⟨0, List.replicate 5 0, false⟩ 0 258 1).buf = [0, 0, 0, 1, 2] ∧
    (finishObject_v0 ⟨0, List.replicate 5 0, false⟩ 0 258 1).buf = [0, 2, 1, 0, 0] := by
  refine ⟨⟨?_, ?_, ?_, ?_⟩, byteOf_recompose16 v, by decide, by decide, by decide,
    by decide⟩ <;>
    simp only [writeI16, writeI16_v0, getByte_withPos, getByte_setByte,
      setByte_length, true_and, and_true] <;>
    split_ifs <;> first | rfl | omega

/-- C5 witness: the swap equalities at a concrete state and value. -/
theorem writeI16_revisions_differ_witness :
    getByte (writeI16 ⟨0, [0, 0, 0], false⟩ 258) 1 =
      getByte (writeI16_v0 ⟨0, [0, 0, 0], false⟩ 258) 2 :=
  (writeI16_revisions_differ ⟨0, [0, 0, 0], false⟩ 258 (by decide)).1.1

/-- C6 counterexample: with the cursor at 10 in a 15-byte buffer the
precondition cursor + 5 ≤ length holds, yet writeD32 performs a store outside
the buffer (its float scratch bytes at 44..47), so the claim that every byte
index written under that precondition is below the buffer length is false. -/
theorem bounds_claim_counterexample :
    (⟨10, List.replicate 15 0, false⟩ : Builder).pos + 5 ≤
      (⟨10, List.replicate 15 0, false⟩ : Builder).buf.length ∧
    (writeD32 ⟨10, List.replicate 15 0, false⟩ 0).oob = true := by
  decide

/-- C6 amended: no operation checks capacity; for the integer writes, the
string byte write and the container starts, the precondition cursor + token
size ≤ buffer length keeps every written index in bounds (the oob branch is
unreachable); writeD32 and writeD64 additionally need their scratch region
in bounds (4*(pos+1)+4 resp. 8*(pos+1)+8 ≤ length, here given as
4*pos+8 resp. 8*pos+16); without the precondition a write goes past the
buffer's end. -/
theorem bounds_discipline_amended (b : Builder) (v flags : Int) (bits : Nat)
    (hoob : b.oob = false) :
    (b.pos + 2 ≤ b.buf.length → (writeByte b v).oob = false) ∧
    (b.pos + 3 ≤ b.buf.length → (writeI16 b v).oob = false) ∧
    (b.pos + 5 ≤ b.buf.length → (writeI32 b v).oob = false) ∧
    (b.pos + 1 ≤ b.buf.length → (writeStringChar b v).oob = false) ∧
    (flags % 2 = 0 → b.pos + 2 ≤ b.buf.length →
      (startObject b flags).oob = false ∧ (startArray b flags).oob = false ∧
      (startString b flags).oob = false) ∧
    (b.pos + 5 ≤ b.buf.length →
      (startObject b flags).oob = false ∧ (startArray b flags).oob = false ∧
      (startString b flags).oob = false) ∧
    (b.pos + 5 ≤ b.buf.length → 4 * b.pos + 8 ≤ b.buf.length →
      (writeD32 b bits).oob = false) ∧
    (b.pos + 9 ≤ b.buf.length → 8 * b.pos + 16 ≤ b.buf.length →
      (writeD64 b bits).oob = false) ∧
    (writeByte ⟨0, [0], false⟩ 0).oob = true := by
  refine ⟨?_, ?_, ?_, ?_, ?_, ?_, ?_, ?_, by decide⟩
  · intro h2
    simp only [writeByte, oob_withPos, setByte_oob, setByte_length, hoob,
      Bool.false_or, Bool.or_eq_false_iff, decide_eq_false_iff_not]
    omega
  · intro h3
    simp only [writeI16, oob_withPos, setByte_oob, setByte_length, hoob,
      Bool.false_or, Bool.or_eq_false_iff, decide_eq_false_iff_not]
    omega
  · intro h5
    simp only [writeI32, oob_withPos, setByte_oob, setByte_length, hoob,
      Bool.false_or, Bool.or_eq_false_iff, decide_eq_false_iff_not]
    omega
  · intro h1
    simp only [writeStringChar, oob_withPos, setByte_oob, setByte_length, hoob,
      Bool.false_or, decide_eq_false_iff_not]
    omega
  · intro hf h2
    refine ⟨?_, ?_, ?_⟩ <;>
      simp only [startObject, startArray, startString, if_pos hf, oob_withPos,
        setByte_oob, setByte_length, hoob, Bool.false_or, Bool.or_eq_false_iff,
        decide_eq_false_iff_not] <;>
      omega
  · intro h5
    by_cases hf : flags % 2 = 0 <;>
      refine ⟨?_, ?_, ?_⟩ <;>
      simp only [startObject, startArray, startString, if_pos, if_neg, hf,
        if_true, if_false, ite_true, ite_false, oob_withPos, setByte_oob,
        setByte_length, hoob, Bool.false_or, Bool.or_eq_false_iff,
        decide_eq_false_iff_not] <;>
      omega
  · intro h5 hs
    simp only [writeD32, oob_withPos, setByte_oob, setByte_length, hoob,
      Bool.false_or, Bool.or_eq_false_iff, decide_eq_false_iff_not]
    omega
  · intro h9 hs
    simp only [writeD64, oob_withPos, setByte_oob, setByte_length, hoob,
      Bool.false_or, Bool.or_eq_false_iff, decide_eq_false_iff_not]
    omega

/-- C6 witness: the amended preconditions discharged at concrete states. -/
theorem bounds_discipline_amended_witness :
    (writeByte ⟨0, List.replicate 2 0, false⟩ 7).oob = false ∧
    (writeD32 ⟨1, List.replicate 16 0, false⟩ 5).oob = false := by
  have h := bounds_discipline_amended ⟨0, List.replicate 2 0, false⟩ 7 0 0 rfl
  have h2 := bounds_discipline_amended ⟨1, List.replicate 16 0, false⟩ 7 0 5 rfl
  exact ⟨h.1 (by decide), h2.2.2.2.2.2.2.1 (by decide) (by decide)⟩

theorem getByte_setByte_ne (b : Builder) (i v j : Nat) (h : j ≠ i) :
    getByte (setByte b i v) j = getByte b j := by
  rw [getByte_setByte, if_neg]
  intro hc
  exact h hc.1

theorem getByte_setByte_idx (b : Builder) (i v j : Nat) (h : j = i)
    (hlen : i < b.buf.length) : getByte (setByte b i v) j = v := by
  rw [getByte_setByte, if_pos ⟨h, hlen⟩]

/-- C10: writeD32 and writeD64 modify buffer bytes outside the token they
emit — with the cursor at p, writeD32 stores the bit pattern little-endian at
byte offsets 4*(p+1)..4*(p+1)+3 (writeD64 at 8*(p+1)..8*(p+1)+7) as scratch,
copies those bytes reversed into p+1..p+4 (resp. p+1..p+8) after the marker,
and for every p > 0 the scratch offsets lie at or past the new cursor
(p+5 ≤ 4*(p+1), p+9 ≤ 8*(p+1)), i.e. strictly beyond the emitted token, yet
still hold the scratch data afterwards. -/
theorem writeD_scratch_effect (b : Builder) (bits : Nat) (h1 : 1 ≤ b.pos)
    (h2 : 8 * b.pos + 16 ≤ b.buf.length) :
    (b.pos + 5 ≤ 4 * (b.pos + 1) ∧
     getByte (writeD32 b bits) b.pos = 100 ∧
     getByte (writeD32 b bits) (b.pos + 1) = patByte bits 3 ∧
     getByte (writeD32 b bits) (b.pos + 2) = patByte bits 2 ∧
     getByte (writeD32 b bits) (b.pos + 3) = patByte bits 1 ∧
     getByte (writeD32 b bits) (b.pos + 4) = patByte bits 0 ∧
     getByte (writeD32 b bits) (4 * (b.pos + 1)) = patByte bits 0 ∧
     getByte (writeD32 b bits) (4 * (b.pos + 1) + 1) = patByte bits 1 ∧
     getByte (writeD32 b bits) (4 * (b.pos + 1) + 2) = patByte bits 2 ∧
     getByte (writeD32 b bits) (4 * (b.pos + 1) + 3) = patByte bits 3) ∧
    (b.pos + 9 ≤ 8 * (b.pos + 1) ∧
     getByte (writeD64 b bits) b.pos = 68 ∧
     getByte (writeD64 b bits) (b.pos + 1) = patByte bits 7 ∧
     getByte (writeD64 b bits) (b.pos + 2) = patByte bits 6 ∧
     getByte (writeD64 b bits) (b.pos + 3) = patByte bits 5 ∧
     getByte (writeD64 b bits) (b.pos + 4) = patByte bits 4 ∧
     getByte (writeD64 b bits) (b.pos + 5) = patByte bits 3 ∧
     getByte (writeD64 b bits) (b.pos + 6) = patByte bits 2 ∧
     getByte (writeD64 b bits) (b.pos + 7) = patByte bits 1 ∧
     getByte (writeD64 b bits) (b.pos + 8) = patByte bits 0 ∧
     getByte (writeD64 b bits) (8 * (b.pos + 1)) = patByte bits 0 ∧
     getByte (writeD64 b bits) (8 * (b.pos + 1) + 1) = patByte bits 1 ∧
     getByte (writeD64 b bits) (8 * (b.pos + 1) + 2) = patByte bits 2 ∧
     getByte (writeD64 b bits) (8 * (b.pos + 1) + 3) = patByte bits 3 ∧
     getByte (writeD64 b bits) (8 * (b.pos + 1) + 4) = patByte bits 4 ∧
     getByte (writeD64 b bits) (8 * (b.pos + 1) + 5) = patByte bits 5 ∧
     getByte (writeD64 b bits) (8 * (b.pos + 1) + 6) = patByte bits 6 ∧
     getByte (writeD64 b bits) (8 * (b.pos + 1) + 7) = patByte bits 7) := by
  refine ⟨⟨by omega, ?_, ?_, ?_, ?_, ?_, ?_, ?_, ?_, ?_⟩,
    ⟨by omega, ?_, ?_, ?_, ?_, ?_, ?_, ?_, ?_, ?_, ?_, ?_, ?_, ?_, ?_, ?_, ?_, ?_⟩⟩ <;>
    simp only [writeD32, writeD64, getByte_withPos] <;>
    simp (disch := first | omega | (simp only [setByte_length]; omega)) only
      [getByte_setByte_ne, getByte_setByte_idx]

/-- C10 witness: at cursor 1 the writeD32 scratch bytes land at 8..11,
strictly past the new cursor 6, and hold the pattern bytes. -/
theorem writeD_scratch_effect_witness :
    1 + 5 ≤ 4 * (1 + 1) ∧
    getByte (writeD32 ⟨1, List.replicate 24 0, false⟩ 258) (4 * (1 + 1) + 1) =
      patByte 258 1 := by
  have h := writeD_scratch_effect ⟨1, List.replicate 24 0, false⟩ 258 (by decide)
    (by decide)
  exact ⟨h.1.1, by simpa using h.1.2.2.2.2.2.2.2.1⟩
